import Mathlib

/-!
Shallow embedding of the Jaeger span model (`model/span.go`): trace / span
identifier codecs, span flags, span references and the parent-derivation
logic, together with proofs of the specified properties.

Go strings are modelled as lists of characters (`GoStr`); unsigned 64-bit
and 32-bit machine integers are modelled as `Nat` with explicit `< 2 ^ 64`
(resp. `2 ^ 32`) bounds where they matter.  Fallible Go functions returning
`(T, error)` are modelled as `Except`-valued functions.
-/

namespace Jaeger

/-- Go strings, as sequences of characters. -/
abbrev GoStr := List Char

/-- `TraceID` is a random 128-bit identifier for a trace, stored as two
unsigned 64-bit words `High` and `Low`. -/
structure TraceID where
  High : Nat
  Low : Nat
deriving DecidableEq, Repr

/-- `SpanID` is a random 64-bit identifier for a span (`type SpanID uint64`). -/
abbrev SpanID := Nat

/-- `Flags` is a bit map of flags for a span (`type Flags uint32`). -/
abbrev Flags := Nat

/-- `sampledFlag` is the bit set in Flags in order to define a span as sampled. -/
def sampledFlag : Flags := 1

/-- `debugFlag` is the bit set in Flags in order to define a span as a debug span. -/
def debugFlag : Flags := 2

/-- `SpanRefType` is the integer-backed relationship enumeration; any integer
value is representable, only `0` and `1` are named. -/
abbrev SpanRefType := Int

/-- `ChildOf = 0`. -/
def ChildOf : SpanRefType := 0

/-- `FollowsFrom = 1`. -/
def FollowsFrom : SpanRefType := 1

/-- `SpanRef` is a directed, typed edge from a span to the span identified by
`(traceID, spanID)`. -/
structure SpanRef where
  traceID : TraceID
  spanID : SpanID
  refType : SpanRefType
deriving DecidableEq, Repr

/-- The fragment of the `Span` aggregate the reference / parent logic reads and
writes: its own trace and span identifiers, its flags and its ordered
reference list.  (Timestamps, tags, logs and the process pointer play no role
in the embedded operations.) -/
structure Span where
  traceID : TraceID
  spanID : SpanID
  flags : Flags
  references : List SpanRef
deriving DecidableEq, Repr

/-! ### Flags operations -/

/-- `func (f *Flags) setFlags(bit Flags) { *f = *f | bit }` -/
def Flags.setFlags (f bit : Flags) : Flags := f ||| bit

/-- `SetSampled` sets the Flags as sampled. -/
def Flags.SetSampled (f : Flags) : Flags := Flags.setFlags f sampledFlag

/-- `SetDebug` sets the Flags as debug. -/
def Flags.SetDebug (f : Flags) : Flags := Flags.setFlags f debugFlag

/-- `func (f Flags) checkFlags(bit Flags) bool { return f&bit == bit }` -/
def Flags.checkFlags (f bit : Flags) : Bool := f &&& bit == bit

/-- `IsSampled` returns true if the Flags denote sampling. -/
def Flags.IsSampled (f : Flags) : Bool := Flags.checkFlags f sampledFlag

/-- `IsDebug` returns true if the Flags denote debugging. -/
def Flags.IsDebug (f : Flags) : Bool := Flags.checkFlags f debugFlag

/-! ### Hex rendering (Go `fmt` verbs `%x` and `%016x` on `uint64`) -/

/-- The lowercase hexadecimal digit character for a value `< 16`. -/
def hexChar (n : Nat) : Char :=
  if n < 10 then Char.ofNat (48 + n) else Char.ofNat (87 + n)

/-- Fuel-driven worker for `toHexList`; the fuel only bounds the recursion
depth and never runs out when it starts at the number itself. -/
def toHexCore : Nat → Nat → List Char
  | 0, _ => []
  | fuel + 1, n => if n = 0 then [] else toHexCore fuel (n / 16) ++ [hexChar (n % 16)]

/-- Hex digits of `n`, most significant first; empty for `n = 0`. -/
def toHexList (n : Nat) : List Char := toHexCore n n

/-- Go `fmt.Sprintf("%x", n)`: minimal lowercase hex, `"0"` for zero. -/
def hexMinimal (n : Nat) : GoStr :=
  if n = 0 then ['0'] else toHexList n

/-- Go `fmt.Sprintf("%016x", n)`: lowercase hex zero-padded on the left to a
minimum width of 16 digits. -/
def hexPad16 (n : Nat) : GoStr :=
  List.replicate (16 - (hexMinimal n).length) '0' ++ hexMinimal n

/-! ### Hex parsing (Go `strconv.ParseUint(s, 16, 64)`) -/

/-- The numeric value of a base-16 digit character; Go's `strconv` accepts
`0-9` (codes 48–57), `a-f` (97–102) and `A-F` (65–70), comparing character
codes exactly as below. -/
def hexDigitVal (c : Char) : Option Nat :=
  if 48 ≤ c.toNat ∧ c.toNat ≤ 57 then some (c.toNat - 48)
  else if 97 ≤ c.toNat ∧ c.toNat ≤ 102 then some (c.toNat - 87)
  else if 65 ≤ c.toNat ∧ c.toNat ≤ 70 then some (c.toNat - 55)
  else none

/-- The two error conditions of Go `strconv.ParseUint`: `formatErr` models
`strconv.ErrSyntax` (invalid digit), `rangeErr` models `strconv.ErrRange`
(value does not fit in 64 bits). -/
inductive NumError where
  | formatErr
  | rangeErr
deriving DecidableEq, Repr

/-- The digit-consuming loop of `strconv.ParseUint(s, 16, 64)`: fails on the
first character that is not a hex digit, and fails with a range error as soon
as the accumulator would exceed the unsigned 64-bit maximum (`acc ≥ 2 ^ 60`
just before multiplying by the base). -/
def parseUintLoop : GoStr → Nat → Except NumError Nat
  | [], acc => .ok acc
  | c :: cs, acc =>
    match hexDigitVal c with
    | none => .error .formatErr
    | some d => if 2 ^ 60 ≤ acc then .error .rangeErr else parseUintLoop cs (acc * 16 + d)

/-- Go `strconv.ParseUint(s, 16, 64)`: the empty string is a format error,
otherwise the digit loop runs from accumulator `0`. -/
def ParseUint (s : GoStr) : Except NumError Nat :=
  if s = [] then .error .formatErr else parseUintLoop s 0

/-! ### TraceID / SpanID codecs -/

/-- Errors of the identifier `FromString` parsers: the explicit
too-many-characters error, or an error propagated from `strconv.ParseUint`. -/
inductive IDError where
  | tooLong
  | numErr (e : NumError)
deriving DecidableEq, Repr

/-- `func (t TraceID) String() string`: renders the trace id as a single hex
string — `"%x"` of `Low` when `High == 0`, else `"%x"` of `High` followed by
`"%016x"` of `Low`. -/
def TraceID.String (t : TraceID) : GoStr :=
  if t.High = 0 then hexMinimal t.Low
  else hexMinimal t.High ++ hexPad16 t.Low

/-- `func TraceIDFromString(s string) (TraceID, error)`. -/
def TraceIDFromString (s : GoStr) : Except IDError TraceID :=
  if 32 < s.length then .error .tooLong
  else if 16 < s.length then
    let hiLen := s.length - 16
    match ParseUint (s.take hiLen) with
    | .error e => .error (.numErr e)
    | .ok hi =>
      match ParseUint (s.drop hiLen) with
      | .error e => .error (.numErr e)
      | .ok lo => .ok ⟨hi, lo⟩
  else
    match ParseUint s with
    | .error e => .error (.numErr e)
    | .ok lo => .ok ⟨0, lo⟩

/-- `func (s SpanID) String() string`: minimal lowercase hex. -/
def SpanID.String (s : SpanID) : GoStr := hexMinimal s

/-- `func SpanIDFromString(s string) (SpanID, error)`. -/
def SpanIDFromString (s : GoStr) : Except IDError SpanID :=
  if 16 < s.length then .error .tooLong
  else
    match ParseUint s with
    | .error e => .error (.numErr e)
    | .ok v => .ok v

/-! ### Wire (jsonpb) and generic text codecs -/

/-- The unconditional error of the deliberately disabled generic text codec
("unsupported method ...; please use github.com/gogo/protobuf/jsonpb"). -/
inductive MarshalErr where
  | unsupportedMethod
deriving DecidableEq, Repr

/-- `func (t TraceID) MarshalText() ([]byte, error)`: always fails. -/
def TraceID.MarshalText (_t : TraceID) : Except MarshalErr GoStr :=
  .error .unsupportedMethod

/-- `func (t *TraceID) UnmarshalText(text []byte) error`: always fails,
never assigning through the receiver. -/
def TraceID.UnmarshalText (_t : TraceID) (_text : GoStr) : Except MarshalErr TraceID :=
  .error .unsupportedMethod

/-- `func (s SpanID) MarshalText() ([]byte, error)`: the hex rendering. -/
def SpanID.MarshalText (s : SpanID) : Except MarshalErr GoStr :=
  .ok (SpanID.String s)

/-- `func (t TraceID) MarshalJSONPB(...)`: the hex rendering wrapped in
double quotes. -/
def TraceID.MarshalJSONPB (t : TraceID) : GoStr :=
  '"' :: TraceID.String t ++ ['"']

/-- `func (s SpanID) MarshalJSONPB(...)`: the hex rendering wrapped in
double quotes. -/
def SpanID.MarshalJSONPB (s : SpanID) : GoStr :=
  '"' :: SpanID.String s ++ ['"']

/-- Errors of the jsonpb decoders: the two wrapper format errors raised before
any hex parsing, or an error propagated from the `FromString` parser. -/
inductive JSONPBError where
  | tooShort
  | notQuoted
  | idErr (e : IDError)
deriving DecidableEq, Repr

/-- `func (t *TraceID) UnmarshalJSONPB(_ *jsonpb.Unmarshaler, b []byte) error`:
length and quote checks, then `TraceIDFromString` on `b[1 : len(b)-1]`. -/
def TraceID.UnmarshalJSONPB (b : GoStr) : Except JSONPBError TraceID :=
  if b.length < 3 then .error .tooShort
  else if b.head? ≠ some '"' ∨ b.getLast? ≠ some '"' then .error .notQuoted
  else
    match TraceIDFromString ((b.drop 1).dropLast) with
    | .error e => .error (.idErr e)
    | .ok t => .ok t

/-- `func (s *SpanID) UnmarshalJSONPB(_ *jsonpb.Unmarshaler, b []byte) error`:
length and quote checks, then `SpanIDFromString` on `b[1 : len(b)-1]`. -/
def SpanID.UnmarshalJSONPB (b : GoStr) : Except JSONPBError SpanID :=
  if b.length < 3 then .error .tooShort
  else if b.head? ≠ some '"' ∨ b.getLast? ≠ some '"' then .error .notQuoted
  else
    match SpanIDFromString ((b.drop 1).dropLast) with
    | .error e => .error (.idErr e)
    | .ok v => .ok v

/-! ### Reference / parent logic -/

/-- The scan of `Span.ParentSpanID`: the `spanID` of the first reference whose
`traceID` equals the span's own trace id and whose `refType` is `ChildOf`,
or `0` if there is none. -/
def parentFromRefs (tid : TraceID) : List SpanRef → SpanID
  | [] => 0
  | r :: rs =>
    if r.traceID = tid ∧ r.refType = ChildOf then r.spanID else parentFromRefs tid rs

/-- `func (s *Span) ParentSpanID() SpanID`. -/
def Span.ParentSpanID (s : Span) : SpanID :=
  parentFromRefs s.traceID s.references

/-- Modelled from the spec: `MaybeAddParentSpanID` itself is not among the
provided sources (only its caller `Span.ReplaceParentID` and its test are).
Per the spec: with a zero `parentSpanID` return `refs` unchanged; if `refs`
already holds an entry with the given trace id and `refType == ChildOf`
return `refs` unchanged; otherwise prepend a fresh
`{traceID, parentSpanID, ChildOf}` reference. -/
def MaybeAddParentSpanID (traceID : TraceID) (parentSpanID : SpanID)
    (refs : List SpanRef) : List SpanRef :=
  if parentSpanID = 0 then refs
  else if refs.any (fun r => decide (r.traceID = traceID ∧ r.refType = ChildOf)) then refs
  else ⟨traceID, parentSpanID, ChildOf⟩ :: refs

/-- Modelled from the spec: `NewChildOfRef(traceID, spanID)` is the convenience
constructor returning `{traceID, spanID, ChildOf}`. -/
def NewChildOfRef (traceID : TraceID) (spanID : SpanID) : SpanRef :=
  ⟨traceID, spanID, ChildOf⟩

/-- The in-place scan of `Span.ReplaceParentID`: rewrite the `spanID` of the
first reference with `spanID == oldID` and `traceID == tid` (note: no
`refType` check), or report that no such reference exists. -/
def replaceFirst (tid : TraceID) (oldID newID : SpanID) :
    List SpanRef → Option (List SpanRef)
  | [] => none
  | r :: rs =>
    if r.spanID = oldID ∧ r.traceID = tid then some ({ r with spanID := newID } :: rs)
    else (replaceFirst tid oldID newID rs).map (r :: ·)

/-- `func (s *Span) ReplaceParentID(newParentID SpanID)`: mutate the first
reference matching the derived old parent id in place, else fall back to
`MaybeAddParentSpanID`. -/
def Span.ReplaceParentID (s : Span) (newParentID : SpanID) : Span :=
  let oldParentID := s.ParentSpanID
  match replaceFirst s.traceID oldParentID newParentID s.references with
  | some refs => { s with references := refs }
  | none => { s with references := MaybeAddParentSpanID s.traceID newParentID s.references }

/-! ### Specification-level definitions

These follow the spec's wording (for refinement statements) rather than the
code's recursions: the value of a hex digit string, and the rendering built
from Mathlib's `Nat.digits`. -/

/-- The mathematical value of a hex digit string under a left fold from an
accumulator, `none` if any character is not a hex digit.  This is the
overflow-free semantics that `parseUintLoop` refines. -/
def hexVal? : GoStr → Nat → Option Nat
  | [], acc => some acc
  | c :: cs, acc =>
    match hexDigitVal c with
    | none => none
    | some d => hexVal? cs (acc * 16 + d)

/-- Spec-level minimal lowercase hexadecimal rendering, built from Mathlib's
little-endian `Nat.digits`: the digits of `n` in base 16, most significant
first, mapped to lowercase characters; `"0"` for zero. -/
def specHexMinimal (n : Nat) : GoStr :=
  if n = 0 then ['0'] else ((Nat.digits 16 n).map hexChar).reverse

/-- Spec-level left zero-padding to exactly 16 characters. -/
def specPad16 (cs : GoStr) : GoStr :=
  List.replicate (16 - cs.length) '0' ++ cs

/-- The sixteen lowercase hexadecimal digit characters, `"0123456789abcdef"`. -/
def lowercaseHexDigits : GoStr :=
  (List.range 16).map hexChar

instance {ε α : Type} [DecidableEq ε] [DecidableEq α] : DecidableEq (Except ε α) :=
  fun a b =>
    match a, b with
    | .ok x, .ok y =>
      if h : x = y then .isTrue (by rw [h]) else .isFalse (by intro hc; cases hc; exact h rfl)
    | .error x, .error y =>
      if h : x = y then .isTrue (by rw [h]) else .isFalse (by intro hc; cases hc; exact h rfl)
    | .ok _, .error _ => .isFalse (by intro hc; cases hc)
    | .error _, .ok _ => .isFalse (by intro hc; cases hc)

/-! ## Lemmas about the hex rendering and parsing -/

theorem toHexCore_congr : ∀ fuel fuel' n : Nat, n ≤ fuel → n ≤ fuel' →
    toHexCore fuel n = toHexCore fuel' n := by
  intro fuel
  induction fuel with
  | zero =>
    intro fuel' n h _
    have hn : n = 0 := Nat.le_zero.mp h
    subst hn
    cases fuel' <;> simp [toHexCore]
  | succ fuel ih =>
    intro fuel' n h h'
    cases fuel' with
    | zero =>
      have hn : n = 0 := Nat.le_zero.mp h'
      subst hn
      simp [toHexCore]
    | succ fuel' =>
      by_cases hn : n = 0
      · simp [toHexCore, hn]
      · have hd : n / 16 < n := Nat.div_lt_self (Nat.pos_of_ne_zero hn) (by omega)
        simp only [toHexCore, hn, if_false]
        rw [ih fuel' (n / 16) (by omega) (by omega)]

theorem toHexList_eq (n : Nat) :
    toHexList n = if n = 0 then [] else toHexList (n / 16) ++ [hexChar (n % 16)] := by
  by_cases hn : n = 0
  · subst hn; rfl
  · obtain ⟨m, rfl⟩ : ∃ m, n = m + 1 := ⟨n - 1, by omega⟩
    have hd : (m + 1) / 16 < m + 1 := Nat.div_lt_self (by omega) (by omega)
    simp only [toHexList, toHexCore, hn, if_false]
    rw [toHexCore_congr m ((m + 1) / 16) ((m + 1) / 16) (by omega) le_rfl]

theorem hexDigitVal_hexChar {m : Nat} (h : m < 16) : hexDigitVal (hexChar m) = some m := by
  interval_cases m <;> decide

theorem hexDigitVal_lt {c : Char} {d : Nat} (h : hexDigitVal c = some d) : d < 16 := by
  unfold hexDigitVal at h
  split_ifs at h <;> simp_all <;> omega

theorem hexVal?_le {cs : GoStr} : ∀ {acc v : Nat}, hexVal? cs acc = some v → acc ≤ v := by
  induction cs with
  | nil =>
    intro acc v h
    simp [hexVal?] at h
    omega
  | cons c cs ih =>
    intro acc v h
    simp only [hexVal?] at h
    cases hd : hexDigitVal c with
    | none => rw [hd] at h; cases h
    | some d =>
      rw [hd] at h
      have := ih h
      omega

theorem hexVal?_lt {cs : GoStr} : ∀ {acc v : Nat},
    hexVal? cs acc = some v → v < (acc + 1) * 16 ^ cs.length := by
  induction cs with
  | nil =>
    intro acc v h
    simp [hexVal?] at h
    simp [h]
  | cons c cs ih =>
    intro acc v h
    simp only [hexVal?] at h
    cases hd : hexDigitVal c with
    | none => rw [hd] at h; cases h
    | some d =>
      rw [hd] at h
      have h16 := hexDigitVal_lt hd
      have hv := ih h
      have hstep : (acc * 16 + d + 1) * 16 ^ cs.length ≤ (acc + 1) * 16 ^ (cs.length + 1) := by
        calc (acc * 16 + d + 1) * 16 ^ cs.length
            ≤ ((acc + 1) * 16) * 16 ^ cs.length :=
              Nat.mul_le_mul (by omega) (Nat.le_refl _)
          _ = (acc + 1) * 16 ^ (cs.length + 1) := by rw [pow_succ]; ring
      simp only [List.length_cons]
      omega

theorem hexVal?_append (xs ys : GoStr) : ∀ acc : Nat,
    hexVal? (xs ++ ys) acc = (hexVal? xs acc).bind fun v => hexVal? ys v := by
  induction xs with
  | nil => intro acc; simp [hexVal?]
  | cons c cs ih =>
    intro acc
    simp only [List.cons_append, hexVal?]
    cases hd : hexDigitVal c with
    | none => simp
    | some d => simp [ih]

theorem hexVal?_none_iff {cs : GoStr} : ∀ {acc : Nat},
    hexVal? cs acc = none ↔ ∃ c ∈ cs, hexDigitVal c = none := by
  induction cs with
  | nil => intro acc; simp [hexVal?]
  | cons c cs ih =>
    intro acc
    simp only [hexVal?]
    cases hd : hexDigitVal c with
    | none => simp [hd]
    | some d =>
      simp only [ih, List.mem_cons]
      constructor
      · rintro ⟨x, hx, hxn⟩
        exact ⟨x, Or.inr hx, hxn⟩
      · rintro ⟨x, hx | hx, hxn⟩
        · rw [hx] at hxn; rw [hxn] at hd; cases hd
        · exact ⟨x, hx, hxn⟩

theorem parseUintLoop_ok {cs : GoStr} : ∀ {acc v : Nat},
    hexVal? cs acc = some v → v < 2 ^ 64 → parseUintLoop cs acc = .ok v := by
  induction cs with
  | nil =>
    intro acc v h _
    simp [hexVal?] at h
    simp [parseUintLoop, h]
  | cons c cs ih =>
    intro acc v h hv
    simp only [hexVal?] at h
    cases hd : hexDigitVal c with
    | none => rw [hd] at h; cases h
    | some d =>
      rw [hd] at h
      have hle := hexVal?_le h
      have hacc : ¬ (2 ^ 60 ≤ acc) := by omega
      simp only [parseUintLoop, hd, if_neg hacc]
      exact ih h hv

theorem parseUintLoop_formatErr {cs : GoStr} : ∀ {acc : Nat},
    (∃ c ∈ cs, hexDigitVal c = none) → (acc + 1) * 16 ^ cs.length ≤ 2 ^ 64 →
    parseUintLoop cs acc = .error .formatErr := by
  induction cs with
  | nil => intro acc h _; simp at h
  | cons c cs ih =>
    intro acc h hle
    cases hd : hexDigitVal c with
    | none => simp [parseUintLoop, hd]
    | some d =>
      have hcs : ∃ x ∈ cs, hexDigitVal x = none := by
        rcases h with ⟨x, hx, hxn⟩
        rcases List.mem_cons.mp hx with hx | hx
        · rw [hx] at hxn; rw [hxn] at hd; cases hd
        · exact ⟨x, hx, hxn⟩
      have hdlt := hexDigitVal_lt hd
      have hmono : (acc + 1) * 16 ≤ (acc + 1) * 16 ^ (cs.length + 1) := by
        have h1 : (16 : Nat) = 16 ^ 1 := by norm_num
        exact Nat.mul_le_mul (Nat.le_refl _)
          (by rw [h1]; exact Nat.pow_le_pow_right (by omega) (by omega))
      have hstep : (acc * 16 + d + 1) * 16 ^ cs.length ≤ 2 ^ 64 := by
        have hc : (acc * 16 + d + 1) * 16 ^ cs.length ≤ (acc + 1) * 16 ^ (cs.length + 1) := by
          calc (acc * 16 + d + 1) * 16 ^ cs.length
              ≤ ((acc + 1) * 16) * 16 ^ cs.length :=
                Nat.mul_le_mul (by omega) (Nat.le_refl _)
            _ = (acc + 1) * 16 ^ (cs.length + 1) := by rw [pow_succ]; ring
        simp only [List.length_cons] at hle
        omega
      have hacc : ¬ (2 ^ 60 ≤ acc) := by
        simp only [List.length_cons] at hle
        omega
      simp only [parseUintLoop, hd, if_neg hacc]
      exact ih hcs hstep

theorem toHexList_ne_nil {n : Nat} (h : n ≠ 0) : toHexList n ≠ [] := by
  rw [toHexList_eq]
  simp [h]

theorem hexVal?_toHexList (n : Nat) : ∀ acc : Nat,
    hexVal? (toHexList n) acc = some (acc * 16 ^ (toHexList n).length + n) := by
  induction n using Nat.strong_induction_on with
  | _ n ih =>
    intro acc
    rw [toHexList_eq]
    by_cases hn : n = 0
    · simp [hn, hexVal?]
    · simp only [hn, if_false]
      have hd : n / 16 < n := Nat.div_lt_self (Nat.pos_of_ne_zero hn) (by omega)
      rw [hexVal?_append, ih (n / 16) hd acc]
      have hmlt : n % 16 < 16 := Nat.mod_lt n (by omega)
      simp only [Option.some_bind, hexVal?, hexDigitVal_hexChar hmlt,
        List.length_append, List.length_cons, List.length_nil]
      have hmod : 16 * (n / 16) + n % 16 = n := Nat.div_add_mod n 16
      congr 1
      calc (acc * 16 ^ (toHexList (n / 16)).length + n / 16) * 16 + n % 16
          = acc * (16 ^ (toHexList (n / 16)).length * 16) + (16 * (n / 16) + n % 16) := by
            ring
        _ = acc * 16 ^ ((toHexList (n / 16)).length + 1) + n := by rw [pow_succ, hmod]

theorem toHexList_length_le (n : Nat) : ∀ k : Nat, n < 16 ^ k → (toHexList n).length ≤ k := by
  induction n using Nat.strong_induction_on with
  | _ n ih =>
    intro k hk
    rw [toHexList_eq]
    by_cases hn : n = 0
    · simp [hn]
    · simp only [hn, if_false, List.length_append, List.length_cons, List.length_nil]
      have hk0 : k ≠ 0 := by
        rintro rfl
        simp at hk
        omega
      obtain ⟨k', rfl⟩ : ∃ k', k = k' + 1 := ⟨k - 1, by omega⟩
      have hdiv : n / 16 < 16 ^ k' := by
        rw [Nat.div_lt_iff_lt_mul (by omega)]
        rw [pow_succ] at hk
        exact hk
      have := ih (n / 16) (Nat.div_lt_self (Nat.pos_of_ne_zero hn) (by omega)) k' hdiv
      omega

theorem hexVal?_hexMinimal (n : Nat) : hexVal? (hexMinimal n) 0 = some n := by
  by_cases hn : n = 0
  · subst hn; decide
  · have := hexVal?_toHexList n 0
    simpa [hexMinimal, hn] using this

theorem hexMinimal_ne_nil (n : Nat) : hexMinimal n ≠ [] := by
  by_cases hn : n = 0
  · subst hn; decide
  · simp only [hexMinimal, hn, if_false]
    exact toHexList_ne_nil hn

theorem hexMinimal_length_le {n : Nat} (h : n < 2 ^ 64) : (hexMinimal n).length ≤ 16 := by
  by_cases hn : n = 0
  · subst hn; decide
  · simp only [hexMinimal, hn, if_false]
    exact toHexList_length_le n 16 (by norm_num at h ⊢; omega)

theorem ParseUint_hexMinimal {n : Nat} (h : n < 2 ^ 64) : ParseUint (hexMinimal n) = .ok n := by
  unfold ParseUint
  rw [if_neg (hexMinimal_ne_nil n)]
  exact parseUintLoop_ok (hexVal?_hexMinimal n) h

theorem hexVal?_replicate_zero (k : Nat) : hexVal? (List.replicate k '0') 0 = some 0 := by
  induction k with
  | zero => rfl
  | succ k ih =>
    have h0 : hexDigitVal '0' = some 0 := by decide
    simp only [List.replicate_succ, hexVal?, h0]
    simpa using ih

theorem hexVal?_hexPad16 (n : Nat) : hexVal? (hexPad16 n) 0 = some n := by
  unfold hexPad16
  rw [hexVal?_append, hexVal?_replicate_zero]
  simpa using hexVal?_hexMinimal n

theorem hexPad16_length {n : Nat} (h : n < 2 ^ 64) : (hexPad16 n).length = 16 := by
  have := hexMinimal_length_le h
  simp only [hexPad16, List.length_append, List.length_replicate]
  omega

theorem hexPad16_ne_nil (n : Nat) : hexPad16 n ≠ [] := by
  unfold hexPad16
  intro hc
  exact hexMinimal_ne_nil n (List.append_eq_nil.mp hc).2

theorem ParseUint_hexPad16 {n : Nat} (h : n < 2 ^ 64) : ParseUint (hexPad16 n) = .ok n := by
  unfold ParseUint
  rw [if_neg (hexPad16_ne_nil n)]
  exact parseUintLoop_ok (hexVal?_hexPad16 n) h

/-! ## Claim C1: TraceID text round trip -/

/-- C1: for every pair of unsigned 64-bit integers `(high, low)`, parsing the
canonical text rendering of the TraceID `{high, low}` succeeds and returns a
TraceID equal to `{high, low}`: `TraceIDFromString(t.String()) == t` with no
error, for all constructible values. -/
theorem TraceIDFromString_String_roundTrip (t : TraceID)
    (hh : t.High < 2 ^ 64) (hl : t.Low < 2 ^ 64) :
    TraceIDFromString (TraceID.String t) = .ok t := by
  obtain ⟨hi, lo⟩ := t
  simp only [TraceID.String] at *
  by_cases h0 : hi = 0
  · subst h0
    rw [if_pos rfl]
    have hlen : (hexMinimal lo).length ≤ 16 := hexMinimal_length_le hl
    simp only [TraceIDFromString, if_neg (show ¬ 32 < (hexMinimal lo).length by omega),
      if_neg (show ¬ 16 < (hexMinimal lo).length by omega)]
    rw [ParseUint_hexMinimal hl]
  · rw [if_neg h0]
    have hlh : (hexMinimal hi).length ≤ 16 := hexMinimal_length_le hh
    have hlh1 : 1 ≤ (hexMinimal hi).length := List.length_pos.mpr (hexMinimal_ne_nil hi)
    have hpl : (hexPad16 lo).length = 16 := hexPad16_length hl
    have hslen : (hexMinimal hi ++ hexPad16 lo).length = (hexMinimal hi).length + 16 := by
      simp [hpl]
    have htake : (hexMinimal hi ++ hexPad16 lo).take
        ((hexMinimal hi ++ hexPad16 lo).length - 16) = hexMinimal hi := by
      rw [hslen, show (hexMinimal hi).length + 16 - 16 = (hexMinimal hi).length by omega]
      exact List.take_left _ _
    have hdrop : (hexMinimal hi ++ hexPad16 lo).drop
        ((hexMinimal hi ++ hexPad16 lo).length - 16) = hexPad16 lo := by
      rw [hslen, show (hexMinimal hi).length + 16 - 16 = (hexMinimal hi).length by omega]
      exact List.drop_left _ _
    simp only [TraceIDFromString,
      if_neg (show ¬ 32 < (hexMinimal hi ++ hexPad16 lo).length by rw [hslen]; omega),
      if_pos (show 16 < (hexMinimal hi ++ hexPad16 lo).length by rw [hslen]; omega)]
    rw [htake, hdrop, ParseUint_hexMinimal hh, ParseUint_hexPad16 hl]

theorem TraceIDFromString_String_roundTrip_witness :
    TraceIDFromString (TraceID.String ⟨48879, 51966⟩) = .ok ⟨48879, 51966⟩ :=
  TraceIDFromString_String_roundTrip ⟨48879, 51966⟩ (by decide) (by decide)

/-! ## Claim C5: canonical rendering of TraceID -/

theorem toHexList_eq_digits (n : Nat) :
    toHexList n = ((Nat.digits 16 n).map hexChar).reverse := by
  induction n using Nat.strong_induction_on with
  | _ n ih =>
    rw [toHexList_eq]
    by_cases hn : n = 0
    · simp [hn]
    · have hd : n / 16 < n := Nat.div_lt_self (Nat.pos_of_ne_zero hn) (by omega)
      rw [Nat.digits_def' (by norm_num : 1 < 16) (Nat.pos_of_ne_zero hn)]
      simp only [hn, if_false, List.map_cons, List.reverse_cons]
      rw [ih (n / 16) hd]

theorem hexMinimal_eq_spec (n : Nat) : hexMinimal n = specHexMinimal n := by
  unfold hexMinimal specHexMinimal
  by_cases hn : n = 0
  · simp [hn]
  · simp [hn, toHexList_eq_digits]

theorem hexChar_mem_lowercase {m : Nat} (h : m < 16) : hexChar m ∈ lowercaseHexDigits :=
  List.mem_map.mpr ⟨m, List.mem_range.mpr h, rfl⟩

theorem toHexList_chars (n : Nat) : ∀ c ∈ toHexList n, c ∈ lowercaseHexDigits := by
  induction n using Nat.strong_induction_on with
  | _ n ih =>
    intro c hc
    rw [toHexList_eq] at hc
    by_cases hn : n = 0
    · simp [hn] at hc
    · simp only [hn, if_false, List.mem_append, List.mem_cons, List.not_mem_nil,
        or_false] at hc
      rcases hc with hc | hc
      · exact ih (n / 16) (Nat.div_lt_self (Nat.pos_of_ne_zero hn) (by omega)) c hc
      · rw [hc]
        exact hexChar_mem_lowercase (Nat.mod_lt n (by omega))

theorem hexMinimal_chars (n : Nat) : ∀ c ∈ hexMinimal n, c ∈ lowercaseHexDigits := by
  intro c hc
  by_cases hn : n = 0
  · subst hn
    have h0 : hexMinimal 0 = ['0'] := rfl
    rw [h0, List.mem_singleton] at hc
    rw [hc]; decide
  · simp only [hexMinimal, hn, if_false] at hc
    exact toHexList_chars n c hc

theorem hexPad16_chars (n : Nat) : ∀ c ∈ hexPad16 n, c ∈ lowercaseHexDigits := by
  intro c hc
  simp only [hexPad16, List.mem_append, List.mem_replicate] at hc
  rcases hc with ⟨_, hc⟩ | hc
  · rw [hc]; decide
  · exact hexMinimal_chars n c hc

/-- C5: for every TraceID `{high, low}` of unsigned 64-bit words: if
`high == 0`, `String()` is the minimal lowercase hexadecimal rendering of
`low` (no leading zero padding); otherwise it is the minimal lowercase hex
rendering of `high` concatenated with `low` rendered zero-padded to exactly
16 hex digits.  The renderings are stated against the specification-level
`Nat.digits`-based definitions, and every emitted character is one of the
sixteen lowercase hex digits. -/
theorem TraceID_String_rendering (t : TraceID)
    (_hh : t.High < 2 ^ 64) (hl : t.Low < 2 ^ 64) :
    (t.High = 0 → TraceID.String t = specHexMinimal t.Low) ∧
    (t.High ≠ 0 →
      TraceID.String t = specHexMinimal t.High ++ specPad16 (specHexMinimal t.Low) ∧
      (specPad16 (specHexMinimal t.Low)).length = 16) ∧
    (∀ c ∈ TraceID.String t, c ∈ lowercaseHexDigits) := by
  have hpadspec : specPad16 (specHexMinimal t.Low) = hexPad16 t.Low := by
    rw [← hexMinimal_eq_spec]; rfl
  refine ⟨fun h0 => ?_, fun h0 => ⟨?_, ?_⟩, ?_⟩
  · rw [TraceID.String, if_pos h0, hexMinimal_eq_spec]
  · rw [TraceID.String, if_neg h0, hexMinimal_eq_spec, hpadspec]
  · rw [hpadspec]
    exact hexPad16_length hl
  · intro c hc
    rw [TraceID.String] at hc
    by_cases h0 : t.High = 0
    · rw [if_pos h0] at hc
      exact hexMinimal_chars _ c hc
    · rw [if_neg h0] at hc
      rcases List.mem_append.mp hc with hc | hc
      · exact hexMinimal_chars _ c hc
      · exact hexPad16_chars _ c hc

theorem TraceID_String_rendering_witness :
    TraceID.String ⟨42, 67⟩ = specHexMinimal 42 ++ specPad16 (specHexMinimal 67) :=
  ((TraceID_String_rendering ⟨42, 67⟩ (by decide) (by decide)).2.1 (by decide)).1

/-! ## Claim C6: FromString length and format errors -/

theorem ParseUint_ok_of_valid {s : GoStr} (hne : s ≠ []) (hlen : s.length ≤ 16)
    (hvalid : ∀ c ∈ s, (hexDigitVal c).isSome) :
    ∃ v, v < 2 ^ 64 ∧ ParseUint s = .ok v := by
  cases hv : hexVal? s 0 with
  | none =>
    rw [hexVal?_none_iff] at hv
    obtain ⟨c, hc, hcn⟩ := hv
    have := hvalid c hc
    simp [hcn] at this
  | some v =>
    have hlt := hexVal?_lt hv
    have hv64 : v < 2 ^ 64 := by
      have h16 : (16 : Nat) ^ s.length ≤ 16 ^ 16 := Nat.pow_le_pow_right (by omega) hlen
      have he : (16 : Nat) ^ 16 = 2 ^ 64 := by norm_num
      omega
    refine ⟨v, hv64, ?_⟩
    unfold ParseUint
    rw [if_neg hne]
    exact parseUintLoop_ok hv hv64

theorem ParseUint_formatErr_of_invalid {s : GoStr} (hlen : s.length ≤ 16)
    (hbad : ∃ c ∈ s, hexDigitVal c = none) : ParseUint s = .error .formatErr := by
  have hne : s ≠ [] := by rintro rfl; simp at hbad
  unfold ParseUint
  rw [if_neg hne]
  apply parseUintLoop_formatErr hbad
  have h16 : (16 : Nat) ^ s.length ≤ 16 ^ 16 := Nat.pow_le_pow_right (by omega) hlen
  have he : (16 : Nat) ^ 16 = 2 ^ 64 := by norm_num
  omega

/-- C6: for every string `s`: `TraceIDFromString` fails with the length error
beyond 32 characters; for `16 < len ≤ 32` it splits at `len - 16` and parses
the prefix as `high` and the suffix as `low` in base 16 (propagating a format
error, which an invalid hex character in either half forces); for `len ≤ 16`
it parses the whole string as `low` with `high = 0`.  `SpanIDFromString`
fails with a length error beyond 16 characters, and otherwise parses `s` as
base-16 unsigned 64-bit, failing with the format error on invalid hex and
succeeding on nonempty valid hex. -/
theorem FromString_parsing_spec (s : GoStr) :
    (32 < s.length → TraceIDFromString s = .error .tooLong) ∧
    (16 < s.length → s.length ≤ 32 →
      TraceIDFromString s =
        match ParseUint (s.take (s.length - 16)), ParseUint (s.drop (s.length - 16)) with
        | .error e, _ => .error (.numErr e)
        | .ok _, .error e => .error (.numErr e)
        | .ok hi, .ok lo => .ok ⟨hi, lo⟩) ∧
    (s.length ≤ 16 →
      TraceIDFromString s =
        match ParseUint s with
        | .error e => .error (.numErr e)
        | .ok lo => .ok ⟨0, lo⟩) ∧
    (16 < s.length → s.length ≤ 32 → (∃ c ∈ s, hexDigitVal c = none) →
      TraceIDFromString s = .error (.numErr .formatErr)) ∧
    (16 < s.length → SpanIDFromString s = .error .tooLong) ∧
    (s.length ≤ 16 →
      SpanIDFromString s =
        match ParseUint s with
        | .error e => .error (.numErr e)
        | .ok v => .ok v) ∧
    (s.length ≤ 16 → (∃ c ∈ s, hexDigitVal c = none) →
      SpanIDFromString s = .error (.numErr .formatErr)) ∧
    (s ≠ [] → s.length ≤ 16 → (∀ c ∈ s, (hexDigitVal c).isSome) →
      ∃ v, v < 2 ^ 64 ∧ SpanIDFromString s = .ok v) := by
  have htakelen : 16 < s.length → (s.take (s.length - 16)).length = s.length - 16 := by
    intro h
    rw [List.length_take]
    omega
  have hdroplen : (s.drop (s.length - 16)).length = s.length - (s.length - 16) := by
    rw [List.length_drop]
  have hmid : 16 < s.length → s.length ≤ 32 →
      TraceIDFromString s =
        match ParseUint (s.take (s.length - 16)), ParseUint (s.drop (s.length - 16)) with
        | .error e, _ => .error (.numErr e)
        | .ok _, .error e => .error (.numErr e)
        | .ok hi, .ok lo => .ok ⟨hi, lo⟩ := by
    intro h1 h2
    simp only [TraceIDFromString, if_neg (show ¬ 32 < s.length by omega), if_pos h1]
    cases ParseUint (s.take (s.length - 16)) <;> cases ParseUint (s.drop (s.length - 16)) <;> rfl
  have hshort : s.length ≤ 16 →
      TraceIDFromString s =
        match ParseUint s with
        | .error e => .error (.numErr e)
        | .ok lo => .ok ⟨0, lo⟩ := by
    intro h
    simp only [TraceIDFromString, if_neg (show ¬ 32 < s.length by omega),
      if_neg (show ¬ 16 < s.length by omega)]
  have hspan : s.length ≤ 16 →
      SpanIDFromString s =
        match ParseUint s with
        | .error e => .error (.numErr e)
        | .ok v => .ok v := by
    intro h
    simp only [SpanIDFromString, if_neg (show ¬ 16 < s.length by omega)]
  refine ⟨fun h => ?_, hmid, hshort, fun h1 h2 hbad => ?_, fun h => ?_, hspan,
    fun h hbad => ?_, fun hne h hvalid => ?_⟩
  · simp only [TraceIDFromString, if_pos h]
  · rw [hmid h1 h2]
    by_cases hbtake : ∃ c ∈ s.take (s.length - 16), hexDigitVal c = none
    · rw [ParseUint_formatErr_of_invalid (by rw [htakelen h1]; omega) hbtake]
    · have hbdrop : ∃ c ∈ s.drop (s.length - 16), hexDigitVal c = none := by
        obtain ⟨c, hc, hcn⟩ := hbad
        rw [← List.take_append_drop (s.length - 16) s] at hc
        rcases List.mem_append.mp hc with hc | hc
        · exact absurd ⟨c, hc, hcn⟩ hbtake
        · exact ⟨c, hc, hcn⟩
      rw [ParseUint_formatErr_of_invalid (by rw [hdroplen]; omega) hbdrop]
      have hvtake : ∀ c ∈ s.take (s.length - 16), (hexDigitVal c).isSome := by
        intro c hc
        cases hd : hexDigitVal c with
        | none => exact absurd ⟨c, hc, hd⟩ hbtake
        | some d => rfl
      have hnetake : s.take (s.length - 16) ≠ [] := by
        intro hc
        have := htakelen h1
        rw [hc] at this
        simp at this
        omega
      obtain ⟨v, _, hok⟩ :=
        ParseUint_ok_of_valid hnetake (by rw [htakelen h1]; omega) hvtake
      rw [hok]
  · simp only [SpanIDFromString, if_pos h]
  · rw [hspan h, ParseUint_formatErr_of_invalid h hbad]
  · obtain ⟨v, hv, hok⟩ := ParseUint_ok_of_valid hne h hvalid
    refine ⟨v, hv, ?_⟩
    rw [hspan h, hok]

theorem FromString_parsing_spec_witness :
    TraceIDFromString (List.replicate 33 '0') = .error .tooLong ∧
    SpanIDFromString ['z'] = .error (.numErr .formatErr) :=
  ⟨(FromString_parsing_spec (List.replicate 33 '0')).1 (by decide),
   (FromString_parsing_spec ['z']).2.2.2.2.2.2.1 (by decide) ⟨'z', by decide, by decide⟩⟩

/-! ## Claim C7: generic textual marshal paths -/

/-- C7: TraceID's generic textual marshal and unmarshal entry points
(`MarshalText` / `UnmarshalText`) fail unconditionally for every input with
the error directing callers to the dedicated codec, while SpanID's generic
textual marshal path succeeds, emitting the hex rendering of the value —
exactly the quoted-string equivalent of the jsonpb wire form. -/
theorem MarshalText_paths :
    (∀ t : TraceID, TraceID.MarshalText t = .error .unsupportedMethod) ∧
    (∀ (t : TraceID) (text : GoStr),
      TraceID.UnmarshalText t text = .error .unsupportedMethod) ∧
    (∀ s : SpanID, SpanID.MarshalText s = .ok (SpanID.String s) ∧
      (SpanID.MarshalText s).map (fun o => '"' :: o ++ ['"']) =
        .ok (SpanID.MarshalJSONPB s)) :=
  ⟨fun _ => rfl, fun _ _ => rfl, fun _ => ⟨rfl, rfl⟩⟩

/-! ## Claim C8: jsonpb decoder guards -/

/-- C8: for every byte string `b`, the wire decoders `TraceID.UnmarshalJSONPB`
and `SpanID.UnmarshalJSONPB` fail with a format error — before any hex
parsing — whenever `b` is shorter than 3 characters, or when its first and
last characters are not double quotes; only when both checks pass is the
inner substring `b[1 : len(b)-1]` handed to the respective FromString
parser. -/
theorem UnmarshalJSONPB_guards (b : GoStr) :
    (b.length < 3 →
      TraceID.UnmarshalJSONPB b = .error .tooShort ∧
      SpanID.UnmarshalJSONPB b = .error .tooShort) ∧
    (3 ≤ b.length → (b.head? ≠ some '"' ∨ b.getLast? ≠ some '"') →
      TraceID.UnmarshalJSONPB b = .error .notQuoted ∧
      SpanID.UnmarshalJSONPB b = .error .notQuoted) ∧
    (3 ≤ b.length → b.head? = some '"' → b.getLast? = some '"' →
      TraceID.UnmarshalJSONPB b =
        (match TraceIDFromString ((b.drop 1).dropLast) with
         | .error e => .error (.idErr e)
         | .ok t => .ok t) ∧
      SpanID.UnmarshalJSONPB b =
        (match SpanIDFromString ((b.drop 1).dropLast) with
         | .error e => .error (.idErr e)
         | .ok v => .ok v)) := by
  refine ⟨fun h => ⟨?_, ?_⟩, fun h hq => ⟨?_, ?_⟩, fun h h1 h2 => ?_⟩
  · simp only [TraceID.UnmarshalJSONPB, if_pos h]
  · simp only [SpanID.UnmarshalJSONPB, if_pos h]
  · simp only [TraceID.UnmarshalJSONPB, if_neg (show ¬ b.length < 3 by omega), if_pos hq]
  · simp only [SpanID.UnmarshalJSONPB, if_neg (show ¬ b.length < 3 by omega), if_pos hq]
  · have hnq : ¬ (b.head? ≠ some '"' ∨ b.getLast? ≠ some '"') := by
      simp [h1, h2]
    constructor
    · simp only [TraceID.UnmarshalJSONPB, if_neg (show ¬ b.length < 3 by omega), if_neg hnq]
    · simp only [SpanID.UnmarshalJSONPB, if_neg (show ¬ b.length < 3 by omega), if_neg hnq]

theorem UnmarshalJSONPB_guards_witness :
    TraceID.UnmarshalJSONPB ['x'] = .error .tooShort ∧
    SpanID.UnmarshalJSONPB ['a', 'b', 'c'] = .error .notQuoted :=
  ⟨((UnmarshalJSONPB_guards ['x']).1 (by decide)).1,
   ((UnmarshalJSONPB_guards ['a', 'b', 'c']).2.1 (by decide) (by decide)).2⟩

/-! ## Claim C9: flag bits -/

theorem testBit_one_ne {i : Nat} (h : i ≠ 0) : Nat.testBit 1 i = false := by
  obtain ⟨j, rfl⟩ : ∃ j, i = j + 1 := ⟨i - 1, by omega⟩
  rw [Nat.testBit_succ]
  simp

theorem testBit_two_ne {i : Nat} (h : i ≠ 1) : Nat.testBit 2 i = false := by
  cases i with
  | zero => decide
  | succ j =>
    rw [Nat.testBit_succ]
    exact testBit_one_ne (by omega)

/-- C9: for every Flags value `f`, `SetSampled` sets bit 0 and `SetDebug`
sets bit 1 while leaving every other bit of `f` unchanged, and `IsSampled`
(resp. `IsDebug`) returns true if and only if the corresponding bit is set
in `f`. -/
theorem Flags_bits_spec (f : Flags) :
    ((Flags.SetSampled f).testBit 0 = true ∧
      ∀ i : Nat, i ≠ 0 → (Flags.SetSampled f).testBit i = f.testBit i) ∧
    ((Flags.SetDebug f).testBit 1 = true ∧
      ∀ i : Nat, i ≠ 1 → (Flags.SetDebug f).testBit i = f.testBit i) ∧
    (Flags.IsSampled f = true ↔ f.testBit 0 = true) ∧
    (Flags.IsDebug f = true ↔ f.testBit 1 = true) := by
  refine ⟨⟨?_, fun i hi => ?_⟩, ⟨?_, fun i hi => ?_⟩, ?_, ?_⟩
  · simp [Flags.SetSampled, Flags.setFlags, sampledFlag, Nat.testBit_or]
  · simp [Flags.SetSampled, Flags.setFlags, sampledFlag, Nat.testBit_or, testBit_one_ne hi]
  · simp only [Flags.SetDebug, Flags.setFlags, debugFlag, Nat.testBit_or, Bool.or_eq_true]
    exact Or.inr (by decide)
  · simp [Flags.SetDebug, Flags.setFlags, debugFlag, Nat.testBit_or, testBit_two_ne hi]
  · simp only [Flags.IsSampled, Flags.checkFlags, sampledFlag]
    rw [show (1 : Nat) = 2 ^ 0 by norm_num, Nat.and_two_pow]
    cases hb : f.testBit 0 <;> simp [hb]
  · simp only [Flags.IsDebug, Flags.checkFlags, debugFlag]
    rw [show (2 : Nat) = 2 ^ 1 by norm_num, Nat.and_two_pow]
    cases hb : f.testBit 1 <;> simp [hb]

theorem Flags_bits_spec_witness :
    (Flags.SetSampled 8).testBit 3 = Nat.testBit 8 3 ∧
    (Flags.IsDebug 2 = true ↔ Nat.testBit 2 1 = true) :=
  ⟨(Flags_bits_spec 8).1.2 3 (by decide), (Flags_bits_spec 2).2.2.2⟩

/-! ## Lemmas about the reference / parent logic -/

theorem parentFromRefs_eq_find? (tid : TraceID) (refs : List SpanRef) :
    parentFromRefs tid refs =
      ((refs.find? fun r => decide (r.traceID = tid ∧ r.refType = ChildOf)).map
        SpanRef.spanID).getD 0 := by
  induction refs with
  | nil => rfl
  | cons r rs ih =>
    by_cases hr : r.traceID = tid ∧ r.refType = ChildOf
    · have hd : decide (r.traceID = tid ∧ r.refType = ChildOf) = true := decide_eq_true hr
      simp [parentFromRefs, if_pos hr, List.find?, hd]
    · have hd : decide (r.traceID = tid ∧ r.refType = ChildOf) = false :=
        decide_eq_false hr
      simp [parentFromRefs, if_neg hr, List.find?, hd, ih]

theorem parentFromRefs_eq_zero (tid : TraceID) {refs : List SpanRef}
    (h : ∀ r ∈ refs, ¬(r.traceID = tid ∧ r.refType = ChildOf)) :
    parentFromRefs tid refs = 0 := by
  induction refs with
  | nil => rfl
  | cons r rs ih =>
    have hr := h r (List.mem_cons_self _ _)
    simp only [parentFromRefs, if_neg hr]
    exact ih fun x hx => h x (List.mem_cons_of_mem _ hx)

theorem parentFromRefs_append (tid : TraceID) {refs : List SpanRef} (extra : List SpanRef)
    (h : ∃ r ∈ refs, r.traceID = tid ∧ r.refType = ChildOf) :
    parentFromRefs tid (refs ++ extra) = parentFromRefs tid refs := by
  induction refs with
  | nil => simp at h
  | cons r rs ih =>
    by_cases hr : r.traceID = tid ∧ r.refType = ChildOf
    · simp [parentFromRefs, if_pos hr]
    · simp only [List.cons_append, parentFromRefs, if_neg hr]
      apply ih
      rcases h with ⟨x, hx, hxp⟩
      rcases List.mem_cons.mp hx with rfl | hx
      · exact absurd hxp hr
      · exact ⟨x, hx, hxp⟩

theorem replaceFirst_none (tid : TraceID) (oldID newID : SpanID) {refs : List SpanRef}
    (h : ∀ r ∈ refs, ¬(r.spanID = oldID ∧ r.traceID = tid)) :
    replaceFirst tid oldID newID refs = none := by
  induction refs with
  | nil => rfl
  | cons r rs ih =>
    simp only [replaceFirst, if_neg (h r (List.mem_cons_self _ _))]
    rw [ih fun x hx => h x (List.mem_cons_of_mem _ hx)]
    rfl

theorem replaceFirst_decomp (tid : TraceID) (oldID newID : SpanID) :
    ∀ {refs : List SpanRef}, (∃ r ∈ refs, r.spanID = oldID ∧ r.traceID = tid) →
    ∃ pre r post, refs = pre ++ r :: post ∧ r.spanID = oldID ∧ r.traceID = tid ∧
      (∀ x ∈ pre, ¬(x.spanID = oldID ∧ x.traceID = tid)) ∧
      replaceFirst tid oldID newID refs =
        some (pre ++ { r with spanID := newID } :: post) := by
  intro refs
  induction refs with
  | nil => intro h; simp at h
  | cons r rs ih =>
    intro h
    by_cases hr : r.spanID = oldID ∧ r.traceID = tid
    · exact ⟨[], r, rs, by simp, hr.1, hr.2, by simp, by simp [replaceFirst, if_pos hr]⟩
    · have hrs : ∃ x ∈ rs, x.spanID = oldID ∧ x.traceID = tid := by
        rcases h with ⟨x, hx, hxp⟩
        rcases List.mem_cons.mp hx with rfl | hx
        · exact absurd hxp hr
        · exact ⟨x, hx, hxp⟩
      obtain ⟨pre, x, post, hdec, h1, h2, hpre, hrf⟩ := ih hrs
      refine ⟨r :: pre, x, post, by simp [hdec], h1, h2, ?_, ?_⟩
      · intro y hy
        rcases List.mem_cons.mp hy with rfl | hy
        · exact hr
        · exact hpre y hy
      · simp only [replaceFirst, if_neg hr]
        rw [hrf]
        rfl

/-! ## Claim C4: parent derivation -/

/-- C4: `ParentSpanID` is a pure read that scans `span.references` in sequence
order and returns the `spanID` of the first entry whose `traceID` equals the
span's own trace id and whose `refType` is `ChildOf` (stated via
`List.find?`); if no entry satisfies both conditions it returns the zero
SpanID, and entries appended after a matching one never influence the
result. -/
theorem ParentSpanID_spec (s : Span) :
    Span.ParentSpanID s =
      ((s.references.find? fun r =>
        decide (r.traceID = s.traceID ∧ r.refType = ChildOf)).map SpanRef.spanID).getD 0 ∧
    ((∀ r ∈ s.references, ¬(r.traceID = s.traceID ∧ r.refType = ChildOf)) →
      Span.ParentSpanID s = 0) ∧
    (∀ extra : List SpanRef,
      (∃ r ∈ s.references, r.traceID = s.traceID ∧ r.refType = ChildOf) →
      Span.ParentSpanID { s with references := s.references ++ extra } =
        Span.ParentSpanID s) :=
  ⟨parentFromRefs_eq_find? s.traceID s.references,
   fun h => parentFromRefs_eq_zero _ h,
   fun extra h => parentFromRefs_append _ extra h⟩

theorem ParentSpanID_spec_witness :
    Span.ParentSpanID ⟨⟨1, 2⟩, 3, 0, [⟨⟨1, 2⟩, 7, ChildOf⟩, ⟨⟨1, 2⟩, 9, ChildOf⟩]⟩ =
      Span.ParentSpanID ⟨⟨1, 2⟩, 3, 0, [⟨⟨1, 2⟩, 7, ChildOf⟩]⟩ :=
  (ParentSpanID_spec ⟨⟨1, 2⟩, 3, 0, [⟨⟨1, 2⟩, 7, ChildOf⟩]⟩).2.2
    [⟨⟨1, 2⟩, 9, ChildOf⟩] ⟨⟨⟨1, 2⟩, 7, ChildOf⟩, by decide, by decide⟩

/-! ## Claim C2: MaybeAddParentSpanID (modelled from the spec) -/

/-- C2: `MaybeAddParentSpanID(traceID, parentID, references)`: if `parentID`
is the zero SpanID the input sequence is returned unchanged; if `references`
already contains an entry with that trace id and refType `ChildOf` the input
is returned unchanged; otherwise the result is the freshly constructed
`{traceID, parentID, ChildOf}` reference prepended to the original entries in
their original order, and parent derivation on the result yields `parentID`.
(The function itself is modelled from the spec, being absent from the
provided sources.) -/
theorem MaybeAddParentSpanID_spec (tid : TraceID) (pid sid : SpanID) (f : Flags)
    (refs : List SpanRef) :
    (pid = 0 → MaybeAddParentSpanID tid pid refs = refs) ∧
    ((∃ r ∈ refs, r.traceID = tid ∧ r.refType = ChildOf) →
      MaybeAddParentSpanID tid pid refs = refs) ∧
    (pid ≠ 0 → (∀ r ∈ refs, ¬(r.traceID = tid ∧ r.refType = ChildOf)) →
      MaybeAddParentSpanID tid pid refs = ⟨tid, pid, ChildOf⟩ :: refs ∧
      Span.ParentSpanID ⟨tid, sid, f, MaybeAddParentSpanID tid pid refs⟩ = pid) := by
  refine ⟨fun h0 => ?_, fun hex => ?_, fun h0 hno => ?_⟩
  · simp [MaybeAddParentSpanID, h0]
  · by_cases h0 : pid = 0
    · simp [MaybeAddParentSpanID, h0]
    · have hany : refs.any (fun r => decide (r.traceID = tid ∧ r.refType = ChildOf)) = true := by
        rw [List.any_eq_true]
        obtain ⟨r, hr, hp⟩ := hex
        exact ⟨r, hr, decide_eq_true hp⟩
      simp only [MaybeAddParentSpanID, if_neg h0, if_pos hany]
  · have hany : refs.any (fun r => decide (r.traceID = tid ∧ r.refType = ChildOf)) = false := by
      rw [Bool.eq_false_iff]
      intro hc
      rw [List.any_eq_true] at hc
      obtain ⟨r, hr, hp⟩ := hc
      exact hno r hr (of_decide_eq_true hp)
    have hcond :
        ¬ ((refs.any fun r => decide (r.traceID = tid ∧ r.refType = ChildOf)) = true) := by
      rw [hany]
      decide
    have heq : MaybeAddParentSpanID tid pid refs = ⟨tid, pid, ChildOf⟩ :: refs := by
      simp only [MaybeAddParentSpanID, if_neg h0, if_neg hcond]
    refine ⟨heq, ?_⟩
    show parentFromRefs tid (MaybeAddParentSpanID tid pid refs) = pid
    rw [heq]
    simp [parentFromRefs]

theorem MaybeAddParentSpanID_spec_witness :
    MaybeAddParentSpanID ⟨0, 1⟩ 5 [] = [⟨⟨0, 1⟩, 5, ChildOf⟩] ∧
    Span.ParentSpanID ⟨⟨0, 1⟩, 2, 0, MaybeAddParentSpanID ⟨0, 1⟩ 5 []⟩ = 5 :=
  (MaybeAddParentSpanID_spec ⟨0, 1⟩ 5 2 0 []).2.2 (by decide) (by decide)

/-! ## Claim C3: ReplaceParentID -/

/-- C3: `ReplaceParentID(span, newParentID)` first computes
`oldParentID = ParentSpanID(span)`; if some reference has
`spanID == oldParentID` and `traceID == span.traceID`, it rewrites the first
such entry's `spanID` to `newParentID`, preserving the entry's position and
`refType` and leaving every other reference (and the span's own identifiers)
unchanged; if no such entry exists, it replaces `span.references` with
`MaybeAddParentSpanID(span.traceID, newParentID, span.references)`. -/
theorem ReplaceParentID_spec (s : Span) (n : SpanID) :
    (s.ReplaceParentID n).traceID = s.traceID ∧
    (s.ReplaceParentID n).spanID = s.spanID ∧
    ((∀ r ∈ s.references, ¬(r.spanID = s.ParentSpanID ∧ r.traceID = s.traceID)) →
      (s.ReplaceParentID n).references =
        MaybeAddParentSpanID s.traceID n s.references) ∧
    ((∃ r ∈ s.references, r.spanID = s.ParentSpanID ∧ r.traceID = s.traceID) →
      ∃ pre r post, s.references = pre ++ r :: post ∧
        r.spanID = s.ParentSpanID ∧ r.traceID = s.traceID ∧
        (∀ x ∈ pre, ¬(x.spanID = s.ParentSpanID ∧ x.traceID = s.traceID)) ∧
        (s.ReplaceParentID n).references = pre ++ { r with spanID := n } :: post) := by
  refine ⟨?_, ?_, fun hno => ?_, fun hex => ?_⟩
  · cases hrf : replaceFirst s.traceID s.ParentSpanID n s.references <;>
      simp [Span.ReplaceParentID, hrf]
  · cases hrf : replaceFirst s.traceID s.ParentSpanID n s.references <;>
      simp [Span.ReplaceParentID, hrf]
  · simp [Span.ReplaceParentID, replaceFirst_none s.traceID s.ParentSpanID n hno]
  · obtain ⟨pre, r, post, hdec, h1, h2, hpre, hrf⟩ :=
      replaceFirst_decomp s.traceID s.ParentSpanID n hex
    exact ⟨pre, r, post, hdec, h1, h2, hpre, by simp [Span.ReplaceParentID, hrf]⟩

theorem ReplaceParentID_spec_witness :
    (Span.ReplaceParentID ⟨⟨0, 1⟩, 2, 0, []⟩ 9).references =
      MaybeAddParentSpanID ⟨0, 1⟩ 9 [] :=
  (ReplaceParentID_spec ⟨⟨0, 1⟩, 2, 0, []⟩ 9).2.2.1 (by decide)

/-! ## Claim C10: ReplaceParentID does not check refType -/

/-- C10: `ReplaceParentID`'s in-place scan does not check `refType`.  For
every span with no ChildOf reference matching its own trace id (so the
derived old parent id is the zero SpanID) whose references contain an entry
with `spanID == 0` and `traceID == span.traceID` of any refType,
`ReplaceParentID(span, n)` mutates that non-parent entry's `spanID` to `n`
instead of adding a new ChildOf reference (the reference count is unchanged),
and the span afterwards still has no derived ChildOf parent. -/
theorem ReplaceParentID_refType_blindSpot (s : Span) (n : SpanID)
    (hNo : ∀ r ∈ s.references, ¬(r.traceID = s.traceID ∧ r.refType = ChildOf))
    (hZ : ∃ r ∈ s.references, r.spanID = 0 ∧ r.traceID = s.traceID) :
    s.ParentSpanID = 0 ∧
    ∃ pre r post, s.references = pre ++ r :: post ∧
      r.spanID = 0 ∧ r.traceID = s.traceID ∧ r.refType ≠ ChildOf ∧
      (∀ x ∈ pre, ¬(x.spanID = 0 ∧ x.traceID = s.traceID)) ∧
      (s.ReplaceParentID n).references = pre ++ { r with spanID := n } :: post ∧
      (s.ReplaceParentID n).references.length = s.references.length ∧
      Span.ParentSpanID (s.ReplaceParentID n) = 0 := by
  have hp0 : s.ParentSpanID = 0 := parentFromRefs_eq_zero _ hNo
  refine ⟨hp0, ?_⟩
  have hZ' : ∃ r ∈ s.references, r.spanID = s.ParentSpanID ∧ r.traceID = s.traceID := by
    rw [hp0]; exact hZ
  obtain ⟨pre, r, post, hdec, h1, h2, hpre, hrf⟩ :=
    replaceFirst_decomp s.traceID s.ParentSpanID n hZ'
  rw [hp0] at h1 hpre
  have hrT : r.refType ≠ ChildOf := by
    intro hc
    have hrmem : r ∈ s.references := by rw [hdec]; simp
    exact hNo r hrmem ⟨h2, hc⟩
  have hrefs : (s.ReplaceParentID n).references = pre ++ { r with spanID := n } :: post := by
    simp [Span.ReplaceParentID, hrf]
  have htid : (s.ReplaceParentID n).traceID = s.traceID := by
    simp [Span.ReplaceParentID, hrf]
  refine ⟨pre, r, post, hdec, h1, h2, hrT, hpre, hrefs, by rw [hrefs, hdec]; simp, ?_⟩
  show parentFromRefs (s.ReplaceParentID n).traceID (s.ReplaceParentID n).references = 0
  rw [htid, hrefs]
  apply parentFromRefs_eq_zero
  intro x hx
  rcases List.mem_append.mp hx with hx | hx
  · exact hNo x (by rw [hdec]; exact List.mem_append_left _ hx)
  · rcases List.mem_cons.mp hx with rfl | hx
    · rintro ⟨_, hxc⟩
      exact hrT hxc
    · exact hNo x (by rw [hdec]; exact List.mem_append_right _ (List.mem_cons_of_mem _ hx))

theorem ReplaceParentID_refType_blindSpot_witness :
    Span.ParentSpanID ⟨⟨0, 1⟩, 2, 0, [⟨⟨0, 1⟩, 0, FollowsFrom⟩]⟩ = 0 ∧
    (Span.ReplaceParentID ⟨⟨0, 1⟩, 2, 0, [⟨⟨0, 1⟩, 0, FollowsFrom⟩]⟩ 5).references =
      [⟨⟨0, 1⟩, 5, FollowsFrom⟩] :=
  ⟨(ReplaceParentID_refType_blindSpot ⟨⟨0, 1⟩, 2, 0, [⟨⟨0, 1⟩, 0, FollowsFrom⟩]⟩ 5
      (by decide) (by decide)).1,
   by decide⟩

end Jaeger
